import Mathlib

/-!
Verification of the Roland VR-6HD protocol codec (src/core/src/lib.rs).

The codec is embedded shallowly.  A Rust string slice is modelled as the
list of its Unicode scalar values (`Str := List Nat`); `byteLen` is the
UTF-8 byte length that Rust `str::len` reports.  Rust byte-indexed
slicing (`&s[a..b]`) panics when an index is not a character boundary,
so the slice model returns an `Option`, with `none` standing for a
panic; fallible operations that can reach a slice return
`Option (Except RolandError _)`, with `none` a panic, `some (.error e)`
an `Err(e)`, and `some (.ok v)` an `Ok(v)`.  Machine integers (u8, u32)
are modelled as `Nat` with the width invariants carried as hypotheses
(`Address.wf`, `v < 256`, `size < 2 ^ 32`).
-/

deriving instance DecidableEq for Except

namespace Roland

/-- A Rust string, as the list of the Unicode scalar values of its
characters. -/
abbrev Str := List Nat

/-- Unicode scalar values of a Lean string literal, used to write down
concrete protocol strings. -/
def str (s : String) : Str := s.data.map Char.toNat

/-- Number of bytes of the UTF-8 encoding of one Unicode scalar value. -/
def utf8Size (c : Nat) : Nat :=
  if c < 0x80 then 1 else if c < 0x800 then 2 else if c < 0x10000 then 3 else 4

/-- Rust `str::len`: the byte length of the UTF-8 encoding. -/
def byteLen (s : Str) : Nat := (s.map utf8Size).sum

/-- Drop `n` leading bytes from a string: the suffix slice `&s[n..]`.
`none` models the Rust panic when `n` is past the end or not a character
boundary. -/
def byteDrop : Str → Nat → Option Str
  | s, 0 => some s
  | [], _ + 1 => none
  | c :: s, n + 1 =>
    if utf8Size c ≤ n + 1 then byteDrop s (n + 1 - utf8Size c) else none

/-- Take `n` leading bytes of a string: the prefix slice `&s[..n]`.
`none` models the Rust panic when `n` is past the end or not a character
boundary. -/
def byteTake : Str → Nat → Option Str
  | _, 0 => some []
  | [], _ + 1 => none
  | c :: s, n + 1 =>
    if utf8Size c ≤ n + 1 then (byteTake s (n + 1 - utf8Size c)).map (c :: ·)
    else none

/-- The Rust slice `&s[a..b]` (with `a ≤ b`); `none` models a panic. -/
def byteSlice (s : Str) (a b : Nat) : Option Str :=
  match byteDrop s a with
  | none => none
  | some t => byteTake t (b - a)

/-- Error enum `RolandError` from src/core/src/lib.rs. -/
inductive RolandError where
  | SyntaxError
  | Invalid
  | OutOfRange
  | NoStx
  | UnknownError (code : Nat)
  | InvalidAddress
  | InvalidValue
  | InvalidResponse
deriving DecidableEq

/-- Struct `Address` from src/core/src/lib.rs: three u8 fields, modelled
as `Nat` with the width invariant in `Address.wf`. -/
structure Address where
  high : Nat
  mid : Nat
  low : Nat
deriving DecidableEq

/-- The u8 typing invariant of the three `Address` fields. -/
def Address.wf (a : Address) : Prop :=
  a.high < 256 ∧ a.mid < 256 ∧ a.low < 256

instance (a : Address) : Decidable a.wf :=
  inferInstanceAs (Decidable (_ ∧ _ ∧ _))

/-- The match on one character inside `parse_hex_byte`: hex digit value
of a character, or `none` for the error arm. -/
def hexDigitVal (c : Nat) : Option Nat :=
  if 48 ≤ c ∧ c ≤ 57 then some (c - 48)
  else if 65 ≤ c ∧ c ≤ 70 then some (c - 65 + 10)
  else if 97 ≤ c ∧ c ≤ 102 then some (c - 97 + 10)
  else none

/-- The character loop of `parse_hex_byte`: folds hex digits into an
accumulator, failing with `InvalidAddress` on a non-hex-digit. -/
def parseHexLoop : Str → Nat → Except RolandError Nat
  | [], acc => .ok acc
  | c :: s, acc =>
    match hexDigitVal c with
    | none => .error .InvalidAddress
    | some d => parseHexLoop s (acc * 16 + d)

/-- Function `parse_hex_byte` from src/core/src/lib.rs: requires byte
length 2, then folds the hex digits.  It performs no slicing, so it
cannot panic. -/
def parse_hex_byte (s : Str) : Except RolandError Nat :=
  if byteLen s = 2 then parseHexLoop s 0 else .error .InvalidAddress

/-- Method `Address::from_hex` from src/core/src/lib.rs.  The length
check is on the byte length (Rust `hex.len()`); the three slices
`&hex[0..2]`, `&hex[2..4]`, `&hex[4..6]` can panic (modelled by `none`)
when a slice boundary falls inside a multi-byte character, and each
slice is parsed before the next one is taken, matching the evaluation
order of the `?` operator. -/
def Address.from_hex (hex : Str) : Option (Except RolandError Address) :=
  if byteLen hex ≠ 6 then some (.error .InvalidAddress)
  else
    match byteSlice hex 0 2 with
    | none => none
    | some s0 =>
      match parse_hex_byte s0 with
      | .error e => some (.error e)
      | .ok high =>
        match byteSlice hex 2 4 with
        | none => none
        | some s1 =>
          match parse_hex_byte s1 with
          | .error e => some (.error e)
          | .ok mid =>
            match byteSlice hex 4 6 with
            | none => none
            | some s2 =>
              match parse_hex_byte s2 with
              | .error e => some (.error e)
              | .ok low => some (.ok ⟨high, mid, low⟩)

/-- One uppercase hex digit character for a value below 16, as computed
inside `write_hex_byte`. -/
def writeHexDigit (d : Nat) : Nat :=
  if d < 10 then 48 + d else 65 + (d - 10)

/-- Function `write_hex_byte` from src/core/src/lib.rs: two uppercase
hex digit characters of one byte. -/
def write_hex_byte (b : Nat) : Str :=
  [writeHexDigit (b / 16 % 16), writeHexDigit (b % 16)]

/-- Method `Address::write_hex` from src/core/src/lib.rs (the sink
path), with the sink output materialised as the written string. -/
def Address.write_hex (a : Address) : Str :=
  write_hex_byte a.high ++ write_hex_byte a.mid ++ write_hex_byte a.low

/-- Function `write_hex_u24` from src/core/src/lib.rs: masks the value
to 24 bits and writes three bytes, six hex digits. -/
def write_hex_u24 (v : Nat) : Str :=
  write_hex_byte (v / 65536 % 256) ++ write_hex_byte (v / 256 % 256) ++
    write_hex_byte (v % 256)

/-- Digit loop of the Rust formatter `{:X}`: big-endian uppercase hex
digits of `n`, accumulated from the low end.  The first argument is
structural fuel; `n` itself is always enough fuel, since `n` has at most
`n` hex digits. -/
def toHexDigitsAux (fuel n : Nat) (acc : Str) : Str :=
  match fuel with
  | 0 => acc
  | fuel + 1 =>
    if n = 0 then acc
    else toHexDigitsAux fuel (n / 16) (writeHexDigit (n % 16) :: acc)

/-- The Rust formatter `{:X}`: uppercase hex digits of `n`, at least
one digit. -/
def formatHex (n : Nat) : Str :=
  if n = 0 then [48] else toHexDigitsAux n n []

/-- The Rust formatter `{:0wX}`: uppercase hex, zero-padded on the left
to a minimum width `w`.  Values needing more than `w` digits keep all
their digits — the width is a minimum, not a truncation. -/
def formatHexPad (w n : Nat) : Str :=
  List.replicate (w - (formatHex n).length) 48 ++ formatHex n

/-- Method `Address::to_hex` from src/core/src/lib.rs:
`format!("{:02X}{:02X}{:02X}", high, mid, low)`. -/
def Address.to_hex (a : Address) : Str :=
  formatHexPad 2 a.high ++ formatHexPad 2 a.mid ++ formatHexPad 2 a.low

/-- Enum `Command` from src/core/src/lib.rs. -/
inductive Command where
  | WriteParameter (address : Address) (value : Nat)
  | ReadParameter (address : Address) (size : Nat)
  | GetVersion
deriving DecidableEq

/-- Method `Command::encode` from src/core/src/lib.rs, the allocating
path built from `format!`: the size field of `ReadParameter` uses the
formatter `{:06X}`. -/
def Command.encode : Command → Str
  | .WriteParameter a v =>
    str ("DTH:") ++ a.to_hex ++ [44] ++ formatHexPad 2 v ++ [59]
  | .ReadParameter a size =>
    str ("RQH:") ++ a.to_hex ++ [44] ++ formatHexPad 6 size ++ [59]
  | .GetVersion => str ("VER;")

/-- Method `Command::encode_with_stx` from src/core/src/lib.rs. -/
def Command.encode_with_stx (c : Command) : Str := 2 :: c.encode

/-- Method `Command::write` from src/core/src/lib.rs, the sink path,
with the sink output materialised as the written string: the size field
of `ReadParameter` uses `write_hex_u24`. -/
def Command.write : Command → Str
  | .WriteParameter a v =>
    str ("DTH:") ++ a.write_hex ++ [44] ++ write_hex_byte v ++ [59]
  | .ReadParameter a size =>
    str ("RQH:") ++ a.write_hex ++ [44] ++ write_hex_u24 size ++ [59]
  | .GetVersion => str ("VER;")

/-- Method `Command::write_with_stx` from src/core/src/lib.rs. -/
def Command.write_with_stx (c : Command) : Str := 2 :: c.write

/-- Enum `Response` from src/core/src/lib.rs. -/
inductive Response where
  | Acknowledge
  | Data (address : Address) (value : Nat)
  | Version (product : Str) (version : Str)
  | Error (e : RolandError)
deriving DecidableEq

/-- Rust `str::split` on the comma character: always returns at least
one piece, empty input giving one empty piece. -/
def splitComma : Str → List Str
  | [] => [[]]
  | c :: s =>
    match splitComma s with
    | [] => [[]]
    | p :: ps => if c = 44 then [] :: p :: ps else (c :: p) :: ps

/-- Rust `char::is_whitespace`: the Unicode White_Space property. -/
def isWhitespace (c : Nat) : Bool :=
  decide (c = 32) || decide (9 ≤ c ∧ c ≤ 13) || decide (c = 0x85) ||
    decide (c = 0xA0) || decide (c = 0x1680) ||
    decide (0x2000 ≤ c ∧ c ≤ 0x200A) || decide (c = 0x2028) ||
    decide (c = 0x2029) || decide (c = 0x202F) || decide (c = 0x205F) ||
    decide (c = 0x3000)

/-- Rust `str::trim`: removes leading and trailing whitespace
characters. -/
def trim (s : Str) : Str :=
  ((s.dropWhile isWhitespace).reverse.dropWhile isWhitespace).reverse

/-- The STX removal step of `Response::parse`: drop one leading 0x02
byte if present (`starts_with` then `&response[1..]`; the slice is
always at a character boundary because 0x02 is one byte). -/
def stripStx (s : Str) : Str :=
  if s.head? = some 2 then s.tail else s

/-- The error-code match inside the `ERR:` branch of `Response::parse`. -/
def errorFromCode (code : Nat) : RolandError :=
  if code = 0 then .SyntaxError
  else if code = 4 then .Invalid
  else if code = 5 then .OutOfRange
  else if code = 6 then .NoStx
  else .UnknownError code

/-- The digit loop of `parse_decimal_u8`, with the u8
`checked_mul`/`checked_add` overflow test. -/
def parseDecLoop : Str → Nat → Except RolandError Nat
  | [], acc => .ok acc
  | c :: s, acc =>
    if 48 ≤ c ∧ c ≤ 57 then
      if acc * 10 + (c - 48) ≤ 255 then parseDecLoop s (acc * 10 + (c - 48))
      else .error .InvalidResponse
    else .error .InvalidResponse

/-- Function `parse_decimal_u8` from src/core/src/lib.rs. -/
def parse_decimal_u8 (s : Str) : Except RolandError Nat :=
  parseDecLoop s 0

/-- The `DTH:` branch of `Response::parse`: the content after the
keyword must end in a semicolon, split into exactly two comma-separated
fields, an address and a hex byte.  The trailing-byte removal
`&content[..content.len() - 1]` is boundary-safe because the last
character is the one-byte semicolon; the only panic source is
`Address::from_hex`. -/
def parseDTH (content : Str) : Option (Except RolandError Response) :=
  if content.getLast? = some 59 then
    match splitComma content.dropLast with
    | [p0, p1] =>
      match Address.from_hex p0 with
      | none => none
      | some (.error e) => some (.error e)
      | some (.ok address) =>
        match parse_hex_byte p1 with
        | .error e => some (.error e)
        | .ok value => some (.ok (.Data address value))
    | _ => some (.error .InvalidResponse)
  else some (.error .InvalidResponse)

/-- The `VER:` branch of `Response::parse`. -/
def parseVER (content : Str) : Option (Except RolandError Response) :=
  if content.getLast? = some 59 then
    match splitComma content.dropLast with
    | [p0, p1] => some (.ok (.Version p0 p1))
    | _ => some (.error .InvalidResponse)
  else some (.error .InvalidResponse)

/-- The `ERR:` branch of `Response::parse`. -/
def parseERR (content : Str) : Option (Except RolandError Response) :=
  if content.getLast? = some 59 then
    match parse_decimal_u8 content.dropLast with
    | .error e => some (.error e)
    | .ok code => some (.ok (.Error (errorFromCode code)))
  else some (.error .InvalidResponse)

/-- The keyword dispatch of `Response::parse`, applied after trimming
and STX removal.  The four-byte keyword drops `&response[4..]` are
boundary-safe because the keywords are ASCII. -/
def dispatch (r : Str) : Option (Except RolandError Response) :=
  if r = [6] ∨ r = str ("ack") then some (.ok .Acknowledge)
  else if r = [17] ∨ r = str ("xon") then some (.error .InvalidResponse)
  else if r = [19] ∨ r = str ("xoff") then some (.error .InvalidResponse)
  else if (str ("DTH:")).isPrefixOf r then parseDTH (r.drop 4)
  else if (str ("VER:")).isPrefixOf r then parseVER (r.drop 4)
  else if (str ("ERR:")).isPrefixOf r then parseERR (r.drop 4)
  else some (.error .InvalidResponse)

/-- Method `Response::parse` from src/core/src/lib.rs: trim surrounding
whitespace, drop one leading STX byte, then dispatch on the keyword or
control byte.  `none` models a Rust panic. -/
def Response.parse (input : Str) : Option (Except RolandError Response) :=
  dispatch (stripStx (trim input))

/-- Decimal value of a digit string, the quantity the spec calls the
evaluation of the digits of an `ERR:` body. -/
def decValue (s : Str) : Nat :=
  s.foldl (fun acc c => acc * 10 + (c - 48)) 0

/-- A character that the hex parser accepts: 0-9, A-F or a-f. -/
def isHexDigitChar (c : Nat) : Bool :=
  decide (48 ≤ c ∧ c ≤ 57) || decide (65 ≤ c ∧ c ≤ 70) ||
    decide (97 ≤ c ∧ c ≤ 102)

/-- ASCII uppercasing, the effect of Rust `str::to_uppercase` on the
hex-digit characters. -/
def asciiUpper (c : Nat) : Nat :=
  if 97 ≤ c ∧ c ≤ 122 then c - 32 else c

/-- Hex digit value of an accepted character, defaulting to 0. -/
def hv (c : Nat) : Nat := (hexDigitVal c).getD 0

/-- An uppercase hex digit character: 0-9 or A-F. -/
def isUpperHexDigit (c : Nat) : Bool :=
  decide (48 ≤ c ∧ c ≤ 57) || decide (65 ≤ c ∧ c ≤ 70)

/-- The address named by a valid six-hex-digit string, pairing
consecutive digits most-significant first. -/
def addrOfHex (s : Str) : Address :=
  match s with
  | [c1, c2, c3, c4, c5, c6] =>
    ⟨hv c1 * 16 + hv c2, hv c3 * 16 + hv c4, hv c5 * 16 + hv c6⟩
  | _ => ⟨0, 0, 0⟩

/-! ### Basic facts about the byte model -/

theorem utf8Size_eq_one {c : Nat} (h : c < 128) : utf8Size c = 1 := by
  unfold utf8Size
  rw [if_pos (by omega)]

theorem byteLen_cons (c : Nat) (s : Str) :
    byteLen (c :: s) = utf8Size c + byteLen s := by
  simp [byteLen]

theorem byteLen_ascii {s : Str} (h : ∀ c ∈ s, c < 128) :
    byteLen s = s.length := by
  induction s with
  | nil => rfl
  | cons c t ih =>
    rw [byteLen_cons, utf8Size_eq_one (h c (by simp)),
      ih (fun x hx => h x (by simp [hx]))]
    simp [Nat.add_comm]

theorem byteDrop_ascii {s : Str} {n : Nat} (h : ∀ c ∈ s, c < 128)
    (hn : n ≤ s.length) : byteDrop s n = some (s.drop n) := by
  induction s generalizing n with
  | nil => cases n with | zero => rfl | succ k => simp at hn
  | cons c t ih =>
    cases n with
    | zero => rfl
    | succ k =>
      rw [byteDrop, utf8Size_eq_one (h c (by simp))]
      rw [if_pos (by omega)]
      simpa using ih (fun x hx => h x (by simp [hx])) (by simpa using hn)

theorem byteTake_ascii {s : Str} {n : Nat} (h : ∀ c ∈ s, c < 128)
    (hn : n ≤ s.length) : byteTake s n = some (s.take n) := by
  induction s generalizing n with
  | nil => cases n with | zero => rfl | succ k => simp at hn
  | cons c t ih =>
    cases n with
    | zero => rfl
    | succ k =>
      rw [byteTake, utf8Size_eq_one (h c (by simp))]
      rw [if_pos (by omega)]
      rw [ih (fun x hx => h x (by simp [hx])) (by simpa using hn)]
      simp

theorem byteSlice_ascii {s : Str} {a b : Nat} (h : ∀ c ∈ s, c < 128)
    (hab : a ≤ b) (hb : b ≤ s.length) :
    byteSlice s a b = some ((s.drop a).take (b - a)) := by
  unfold byteSlice
  rw [byteDrop_ascii h (by omega)]
  exact byteTake_ascii (fun x hx => h x (List.mem_of_mem_drop hx))
    (by simp; omega)

/-! ### Concrete character lists of the protocol keywords -/

theorem str_ack : str ("ack") = [97, 99, 107] := by decide
theorem str_xon : str ("xon") = [120, 111, 110] := by decide
theorem str_xoff : str ("xoff") = [120, 111, 102, 102] := by decide
theorem str_DTH : str ("DTH:") = [68, 84, 72, 58] := by decide
theorem str_RQH : str ("RQH:") = [82, 81, 72, 58] := by decide
theorem str_VER : str ("VER:") = [86, 69, 82, 58] := by decide
theorem str_ERR : str ("ERR:") = [69, 82, 82, 58] := by decide

/-! ### Bounded facts about the hex writers, checked by evaluation -/

set_option maxRecDepth 4000 in
theorem formatHexPad2_eq : ∀ b : Nat, b < 256 →
    formatHexPad 2 b = write_hex_byte b := by decide

set_option maxRecDepth 4000 in
theorem parse_hex_byte_write : ∀ b : Nat, b < 256 →
    parse_hex_byte (write_hex_byte b) = .ok b := by decide

set_option maxRecDepth 4000 in
theorem write_hex_byte_chars : ∀ b : Nat, b < 256 →
    ∀ c ∈ write_hex_byte b, 48 ≤ c ∧ c ≤ 70 := by decide

set_option maxRecDepth 4000 in
theorem hexChar_spec : ∀ c : Nat, isHexDigitChar c = true →
    hexDigitVal c = some (hv c) ∧ hv c < 16 ∧
      writeHexDigit (hv c) = asciiUpper c ∧ c < 128 := by
  have key : ∀ c, c < 103 → isHexDigitChar c = true →
      hexDigitVal c = some (hv c) ∧ hv c < 16 ∧
        writeHexDigit (hv c) = asciiUpper c ∧ c < 128 := by decide
  intro c h
  have hc : c < 103 := by
    by_contra hge
    simp [isHexDigitChar] at h
    omega
  exact key c hc h

theorem writeHexDigit_lt_128 : ∀ d : Nat, d < 16 →
    writeHexDigit d < 128 := by decide

/-! ### Facts about the address hex round trip -/

theorem to_hex_eq_write_hex {a : Address} (h : a.wf) :
    a.to_hex = a.write_hex := by
  obtain ⟨h1, h2, h3⟩ := h
  simp [Address.to_hex, Address.write_hex, formatHexPad2_eq _ h1,
    formatHexPad2_eq _ h2, formatHexPad2_eq _ h3]

theorem to_hex_chars {a : Address} (ha : a.wf) :
    ∀ c ∈ a.to_hex, 48 ≤ c ∧ c ≤ 70 := by
  obtain ⟨h1, h2, h3⟩ := ha
  intro c hc
  rw [to_hex_eq_write_hex ⟨h1, h2, h3⟩] at hc
  simp [Address.write_hex] at hc
  rcases hc with h | h | h
  · exact write_hex_byte_chars _ h1 c h
  · exact write_hex_byte_chars _ h2 c h
  · exact write_hex_byte_chars _ h3 c h

theorem from_hex_pairs {c1 c2 c3 c4 c5 c6 x y z : Nat}
    (h : ∀ c ∈ [c1, c2, c3, c4, c5, c6], c < 128)
    (p1 : parse_hex_byte [c1, c2] = .ok x)
    (p2 : parse_hex_byte [c3, c4] = .ok y)
    (p3 : parse_hex_byte [c5, c6] = .ok z) :
    Address.from_hex [c1, c2, c3, c4, c5, c6] = some (.ok ⟨x, y, z⟩) := by
  have hb : byteLen [c1, c2, c3, c4, c5, c6] = 6 := by
    rw [byteLen_ascii h]; rfl
  have s1 : byteSlice [c1, c2, c3, c4, c5, c6] 0 2 = some [c1, c2] := by
    rw [byteSlice_ascii h (by omega) (by simp)]; rfl
  have s2 : byteSlice [c1, c2, c3, c4, c5, c6] 2 4 = some [c3, c4] := by
    rw [byteSlice_ascii h (by omega) (by simp)]; rfl
  have s3 : byteSlice [c1, c2, c3, c4, c5, c6] 4 6 = some [c5, c6] := by
    rw [byteSlice_ascii h (by omega) (by simp)]; rfl
  unfold Address.from_hex
  rw [if_neg (by omega)]
  simp only [s1, s2, s3, p1, p2, p3]

theorem from_hex_to_hex {a : Address} (ha : a.wf) :
    Address.from_hex a.to_hex = some (.ok a) := by
  obtain ⟨h1, h2, h3⟩ := ha
  rw [to_hex_eq_write_hex ⟨h1, h2, h3⟩]
  have e : a.write_hex =
      [writeHexDigit (a.high / 16 % 16), writeHexDigit (a.high % 16),
        writeHexDigit (a.mid / 16 % 16), writeHexDigit (a.mid % 16),
        writeHexDigit (a.low / 16 % 16), writeHexDigit (a.low % 16)] := rfl
  rw [e]
  refine from_hex_pairs ?_ (parse_hex_byte_write _ h1)
    (parse_hex_byte_write _ h2) (parse_hex_byte_write _ h3)
  intro c hc
  simp at hc
  rcases hc with rfl | rfl | rfl | rfl | rfl | rfl <;>
    exact writeHexDigit_lt_128 _ (Nat.mod_lt _ (by omega))

/-! ### Facts about the comma splitter -/

theorem splitComma_ne_nil (s : Str) : splitComma s ≠ [] := by
  cases s with
  | nil => simp [splitComma]
  | cons c t =>
    unfold splitComma
    cases splitComma t with
    | nil => simp
    | cons p ps =>
      by_cases h : c = 44 <;> simp [h]

theorem splitComma_no_comma {s : Str} (h : 44 ∉ s) : splitComma s = [s] := by
  induction s with
  | nil => rfl
  | cons c t ih =>
    unfold splitComma
    rw [ih (fun hm => h (by simp [hm]))]
    have hc : c ≠ 44 := fun e => h (by simp [e])
    simp [hc]

theorem splitComma_cons (c : Nat) (s : Str) :
    splitComma (c :: s) =
      match splitComma s with
      | [] => [[]]
      | p :: ps => if c = 44 then [] :: p :: ps else (c :: p) :: ps := rfl

theorem splitComma_append {x : Str} (y : Str) (hx : 44 ∉ x) :
    splitComma (x ++ 44 :: y) = x :: splitComma y := by
  induction x with
  | nil =>
    simp only [List.nil_append]
    rw [splitComma_cons]
    cases hy : splitComma y with
    | nil => exact absurd hy (splitComma_ne_nil y)
    | cons p ps => simp
  | cons c t ih =>
    have hc : c ≠ 44 := fun e => hx (by simp [e])
    simp only [List.cons_append]
    rw [splitComma_cons, ih (fun hm => hx (by simp [hm]))]
    simp [hc]

/-! ### Facts about trimming and STX removal -/

theorem dropWhile_eq_self_of_head {s : Str}
    (h : ∀ c, s.head? = some c → isWhitespace c = false) :
    s.dropWhile isWhitespace = s := by
  cases s with
  | nil => rfl
  | cons a t =>
    rw [List.dropWhile_cons_of_neg]
    simp [h a rfl]

theorem trim_eq_self {s : Str}
    (h1 : ∀ c, s.head? = some c → isWhitespace c = false)
    (h2 : ∀ c, s.getLast? = some c → isWhitespace c = false) :
    trim s = s := by
  unfold trim
  rw [dropWhile_eq_self_of_head h1]
  rw [dropWhile_eq_self_of_head (fun c hc =>
    h2 c (by rwa [List.head?_reverse] at hc))]
  exact s.reverse_reverse

theorem trim_cons_ws {c : Nat} {s : Str} (h : isWhitespace c = true) :
    trim (c :: s) = trim s := by
  unfold trim
  rw [List.dropWhile_cons_of_pos (by simp [h])]

theorem getLast?_cons_append {c b : Nat} {M : Str} :
    (c :: (M ++ [b])).getLast? = some b := by
  rw [show c :: (M ++ [b]) = (c :: M) ++ [b] from rfl]
  exact List.getLast?_concat _

theorem trim_shape {c b : Nat} {M : Str} (hc : isWhitespace c = false)
    (hb : isWhitespace b = false) :
    trim (c :: (M ++ [b])) = c :: (M ++ [b]) := by
  apply trim_eq_self
  · intro x hx
    simp at hx
    exact hx ▸ hc
  · intro x hx
    rw [getLast?_cons_append] at hx
    cases hx
    exact hb

theorem stripStx_cons {c : Nat} {t : Str} (hc : c ≠ 2) :
    stripStx (c :: t) = c :: t := by
  simp [stripStx, hc]

theorem stripStx_stx (t : Str) : stripStx (2 :: t) = t := by
  simp [stripStx]

/-! ### Facts about the keyword dispatch -/

theorem dispatch_default {c : Nat} {t : Str}
    (h : c ∉ ([6, 97, 120, 17, 19, 68, 86, 69] : List Nat)) :
    dispatch (c :: t) = some (.error .InvalidResponse) := by
  simp at h
  obtain ⟨n6, n97, n120, n17, n19, n68, n86, n69⟩ := h
  simp [dispatch, str_ack, str_xon, str_xoff, str_DTH, str_VER, str_ERR,
    List.isPrefixOf_iff_prefix, List.cons_prefix_cons, n6, n97, n120, n17,
    n19, Ne.symm n68, Ne.symm n86, Ne.symm n69]

theorem dispatch_keyword_DTH (X : Str) :
    dispatch ([68, 84, 72, 58] ++ X) = parseDTH X := by
  simp [dispatch, str_ack, str_xon, str_xoff, str_DTH, str_VER, str_ERR,
    List.isPrefixOf_iff_prefix, List.cons_prefix_cons]

theorem dispatch_keyword_ERR (X : Str) :
    dispatch ([69, 82, 82, 58] ++ X) = parseERR X := by
  simp [dispatch, str_ack, str_xon, str_xoff, str_DTH, str_VER, str_ERR,
    List.isPrefixOf_iff_prefix, List.cons_prefix_cons]

/-! ### The `DTH:` branch on a well-shaped body -/

theorem parseDTH_two_fields {x y : Str} (hx : 44 ∉ x) (hy : 44 ∉ y) :
    parseDTH (x ++ (44 :: y ++ [59])) =
      match Address.from_hex x with
      | none => none
      | some (.error e) => some (.error e)
      | some (.ok address) =>
        match parse_hex_byte y with
        | .error e => some (.error e)
        | .ok value => some (.ok (.Data address value)) := by
  unfold parseDTH
  have h59 : (x ++ (44 :: y ++ [59])).getLast? = some 59 := by
    rw [show x ++ (44 :: y ++ [59]) = (x ++ 44 :: y) ++ [59] by simp]
    exact List.getLast?_concat _
  rw [if_pos h59]
  have hdl : (x ++ (44 :: y ++ [59])).dropLast = x ++ 44 :: y := by
    rw [show x ++ (44 :: y ++ [59]) = (x ++ 44 :: y) ++ [59] by simp]
    exact List.dropLast_concat
  rw [hdl, splitComma_append y hx, splitComma_no_comma hy]

/-! ### Parsing the encodings of commands -/

theorem encode_write_shape (a : Address) (v : Nat) :
    Command.encode (.WriteParameter a v) =
      68 :: ((84 :: 72 :: 58 :: (a.to_hex ++ 44 :: formatHexPad 2 v)) ++ [59]) := by
  simp [Command.encode, str_DTH]

theorem dispatch_write_encode {a : Address} {v : Nat} (ha : a.wf)
    (hv2 : v < 256) :
    dispatch (68 :: ((84 :: 72 :: 58 :: (a.to_hex ++ 44 :: formatHexPad 2 v)) ++ [59]))
      = some (.ok (.Data a v)) := by
  have h44x : 44 ∉ a.to_hex := fun hm =>
    absurd (to_hex_chars ha _ hm) (by omega)
  have h44y : 44 ∉ formatHexPad 2 v := by
    rw [formatHexPad2_eq v hv2]
    intro hm
    exact absurd (write_hex_byte_chars v hv2 _ hm) (by omega)
  rw [show (68 : Nat) :: ((84 :: 72 :: 58 :: (a.to_hex ++ 44 :: formatHexPad 2 v)) ++ [59])
      = [68, 84, 72, 58] ++ (a.to_hex ++ (44 :: formatHexPad 2 v ++ [59])) by simp]
  rw [dispatch_keyword_DTH, parseDTH_two_fields h44x h44y]
  rw [formatHexPad2_eq v hv2]
  simp only [from_hex_to_hex ha, parse_hex_byte_write v hv2]

theorem parse_write_encode {a : Address} {v : Nat} (ha : a.wf)
    (hv2 : v < 256) :
    Response.parse (Command.encode (.WriteParameter a v)) =
      some (.ok (.Data a v)) := by
  unfold Response.parse
  rw [encode_write_shape, trim_shape (by decide) (by decide),
    stripStx_cons (by decide)]
  exact dispatch_write_encode ha hv2

theorem parse_stx_write_encode {a : Address} {v : Nat} (ha : a.wf)
    (hv2 : v < 256) :
    Response.parse (2 :: Command.encode (.WriteParameter a v)) =
      some (.ok (.Data a v)) := by
  unfold Response.parse
  rw [encode_write_shape]
  rw [show (2 : Nat) :: 68 :: ((84 :: 72 :: 58 :: (a.to_hex ++ 44 :: formatHexPad 2 v)) ++ [59])
      = 2 :: ((68 :: 84 :: 72 :: 58 :: (a.to_hex ++ 44 :: formatHexPad 2 v)) ++ [59]) from rfl]
  rw [trim_shape (by decide) (by decide), stripStx_stx]
  exact dispatch_write_encode ha hv2

theorem parse_stx_ws_write_encode {a : Address} {v : Nat} :
    Response.parse (2 :: 32 :: Command.encode (.WriteParameter a v)) =
      some (.error .InvalidResponse) := by
  unfold Response.parse
  rw [encode_write_shape]
  rw [show (2 : Nat) :: 32 :: 68 :: ((84 :: 72 :: 58 :: (a.to_hex ++ 44 :: formatHexPad 2 v)) ++ [59])
      = 2 :: ((32 :: 68 :: 84 :: 72 :: 58 :: (a.to_hex ++ 44 :: formatHexPad 2 v)) ++ [59]) from rfl]
  rw [trim_shape (by decide) (by decide), stripStx_stx]
  exact dispatch_default (by decide)

theorem parse_cons_ws {c : Nat} {s : Str} (h : isWhitespace c = true) :
    Response.parse (c :: s) = Response.parse s := by
  unfold Response.parse
  rw [trim_cons_ws h]

theorem parse_read_encode (a : Address) (sz : Nat) :
    Response.parse (Command.encode (.ReadParameter a sz)) =
      some (.error .InvalidResponse) := by
  have e : Command.encode (.ReadParameter a sz) =
      82 :: ((81 :: 72 :: 58 :: (a.to_hex ++ 44 :: formatHexPad 6 sz)) ++ [59]) := by
    simp [Command.encode, str_RQH]
  unfold Response.parse
  rw [e, trim_shape (by decide) (by decide), stripStx_cons (by decide)]
  exact dispatch_default (by decide)

/-! ### Claim C1 -/

/-- C1, counterexample.  The claim says that for every constructible
command, parsing the plain encoding never yields an `Ok` response.  It
fails for `WriteParameter`: the write request and the data response
share the grammar `DTH:AAAAAA,VV;`, so the encoding of a write command
parses as an `Ok` data response. -/
theorem c1_commands_responses_not_disjoint :
    Response.parse (Command.encode (.WriteParameter ⟨18, 52, 86⟩ 1)) =
      some (.ok (.Data ⟨18, 52, 86⟩ 1)) := by decide

/-- C1, amended.  Parsing the plain encoding of a command fails with
`InvalidResponse` for `ReadParameter` and `GetVersion`, whose encodings
are not in the response grammar; but the encoding of
`WriteParameter{a, v}` is also the data-response wire form, and parsing
it succeeds with `Ok(Data{a, v})`. -/
theorem c1_roundtrip_amended (a : Address) (v size : Nat) (ha : a.wf)
    (hv2 : v < 256) (_hsize : size < 4294967296) :
    Response.parse (Command.encode (.WriteParameter a v)) =
      some (.ok (.Data a v)) ∧
    Response.parse (Command.encode (.ReadParameter a size)) =
      some (.error .InvalidResponse) ∧
    Response.parse (Command.encode .GetVersion) =
      some (.error .InvalidResponse) :=
  ⟨parse_write_encode ha hv2, parse_read_encode a size, by decide⟩

/-- C1, witness for the amended theorem at a concrete command. -/
theorem c1_roundtrip_amended_witness :
    Response.parse (Command.encode (.WriteParameter ⟨0, 1, 2⟩ 3)) =
      some (.ok (.Data ⟨0, 1, 2⟩ 3)) ∧
    Response.parse (Command.encode (.ReadParameter ⟨0, 1, 2⟩ 1)) =
      some (.error .InvalidResponse) ∧
    Response.parse (Command.encode .GetVersion) =
      some (.error .InvalidResponse) :=
  c1_roundtrip_amended ⟨0, 1, 2⟩ 3 1 (by decide) (by decide) (by decide)

/-! ### Claims C2 and C3 -/

/-- C2, code bug.  The allocating path `Command::encode` and the sink
path `Command::write` disagree on `ReadParameter` once the size needs
more than 24 bits: `{:06X}` does not truncate, `write_hex_u24` masks to
24 bits.  At size 2^24 the encode path emits a seven-digit size field
and the write path a six-digit zero field. -/
theorem c2_encode_write_diverge :
    Command.encode (.ReadParameter ⟨0, 0, 0⟩ 16777216) =
      str ("RQH:000000,1000000;") ∧
    Command.write (.ReadParameter ⟨0, 0, 0⟩ 16777216) =
      str ("RQH:000000,000000;") ∧
    Command.encode (.ReadParameter ⟨0, 0, 0⟩ 16777216) ≠
      Command.write (.ReadParameter ⟨0, 0, 0⟩ 16777216) ∧
    Command.encode_with_stx (.ReadParameter ⟨0, 0, 0⟩ 16777216) ≠
      Command.write_with_stx (.ReadParameter ⟨0, 0, 0⟩ 16777216) := by decide

/-- C3, code bug.  The claim says the size field of an encoded
`ReadParameter` is always exactly six hex digits holding the size
reduced mod 2^24.  `Command::encode` formats the size with `{:06X}`,
which zero-pads to a minimum of six digits but never truncates: at size
2^24 the field is the seven digits 1000000 instead of 000000. -/
theorem c3_size_field_not_truncated :
    Command.encode (.ReadParameter ⟨0, 0, 0⟩ 16777216) ≠
      str ("RQH:000000,000000;") ∧
    Command.encode (.ReadParameter ⟨0, 0, 0⟩ 16777216) =
      str ("RQH:000000,1000000;") := by decide

/-! ### Claims C4 and C5 -/

/-- C4, code bug.  The claim says `Response::parse` is total and never
panics.  On the two-byte-character example given in the claim the parser
does return an error, but an address field made of three-byte
characters (byte length 6, so the length guard passes) makes
`Address::from_hex` slice `&hex[0..2]` inside a character, which
panics in Rust; the panic is the `none` of the model. -/
theorem c4_parse_panics_on_multibyte :
    Response.parse (str ("DTH:ééé,01;")) = some (.error .InvalidAddress) ∧
    Response.parse (str ("DTH:€€,01;")) = none := by decide

/-- C5, code bug.  The claim says `Address::from_hex` rejects every
invalid input with `InvalidAddress` and never panics.  The length guard
compares byte length, so the two-character string of two euro signs
(six UTF-8 bytes) passes it, and the slice `&hex[0..2]` then panics in
Rust (the `none` of the model) instead of returning `InvalidAddress`. -/
theorem c5_from_hex_panics_on_multibyte :
    Address.from_hex (str ("€€")) = none ∧
    Address.from_hex (str ("123456")) = some (.ok ⟨18, 52, 86⟩) := by decide

/-! ### Claim C6 -/

/-- C6, counterexample.  The claim says parsing strips one leading STX
first and trims whitespace second, so that STX followed by whitespace
and a valid body parses like the body, while whitespace before the STX
leaves the STX in place.  The code trims first and strips STX second,
so both consequences are the opposite of the claim. -/
theorem c6_stx_then_whitespace_counterexample :
    Response.parse (2 :: str (" DTH:123456,01;")) =
      some (.error .InvalidResponse) ∧
    Response.parse (str ("DTH:123456,01;")) =
      some (.ok (.Data ⟨18, 52, 86⟩ 1)) ∧
    Response.parse (32 :: 2 :: str ("DTH:123456,01;")) =
      some (.ok (.Data ⟨18, 52, 86⟩ 1)) := by decide

/-- C6, amended.  `Response::parse` first trims surrounding whitespace
and then strips one leading STX byte: whitespace before the STX is
removed and the STX is still stripped, so the input parses like the
plain body, while whitespace between the STX and the body makes the
parse fail with `InvalidResponse`.  The body used is the data-response
wire form, which equals the encoding of a write command. -/
theorem c6_trim_then_stx_amended (a : Address) (v : Nat) (ha : a.wf)
    (hv2 : v < 256) :
    Response.parse (32 :: 2 :: Command.encode (.WriteParameter a v)) =
      some (.ok (.Data a v)) ∧
    Response.parse (2 :: 32 :: Command.encode (.WriteParameter a v)) =
      some (.error .InvalidResponse) := by
  constructor
  · rw [parse_cons_ws (by decide)]
    exact parse_stx_write_encode ha hv2
  · exact parse_stx_ws_write_encode

/-- C6, witness for the amended theorem at a concrete data string. -/
theorem c6_trim_then_stx_amended_witness :
    Response.parse (32 :: 2 :: Command.encode (.WriteParameter ⟨1, 2, 3⟩ 4)) =
      some (.ok (.Data ⟨1, 2, 3⟩ 4)) ∧
    Response.parse (2 :: 32 :: Command.encode (.WriteParameter ⟨1, 2, 3⟩ 4)) =
      some (.error .InvalidResponse) :=
  c6_trim_then_stx_amended ⟨1, 2, 3⟩ 4 (by decide) (by decide)

/-! ### Claim C9 -/

/-- C9.  Parsing an error response with an empty code does not fail:
the digit loop of `parse_decimal_u8` accepts the empty string with
accumulator 0, so `ERR:;` parses like `ERR:0;`, both to the syntax
error response. -/
theorem c9_empty_error_code :
    Response.parse (str ("ERR:;")) = some (.ok (.Error .SyntaxError)) ∧
    Response.parse (str ("ERR:0;")) = some (.ok (.Error .SyntaxError)) := by
  decide

/-! ### Claim C7 -/

theorem parse_hex_byte_pair {c d : Nat} (hc : isHexDigitChar c = true)
    (hd : isHexDigitChar d = true) :
    parse_hex_byte [c, d] = .ok (hv c * 16 + hv d) := by
  obtain ⟨hcv, hclt, -, hc128⟩ := hexChar_spec c hc
  obtain ⟨hdv, hdlt, -, hd128⟩ := hexChar_spec d hd
  have hb : byteLen [c, d] = 2 := by
    rw [byteLen_ascii (by intro x hx; simp at hx; rcases hx with rfl | rfl <;>
      assumption)]
    rfl
  unfold parse_hex_byte
  rw [if_pos hb]
  simp [parseHexLoop, hcv, hdv]

set_option maxRecDepth 4000 in
theorem write_hex_byte_upper : ∀ b : Nat, b < 256 →
    ∀ c ∈ write_hex_byte b, isUpperHexDigit c = true := by decide

theorem asciiUpper_of_lt {c : Nat} (h : c < 97) : asciiUpper c = c := by
  unfold asciiUpper
  rw [if_neg (by omega)]

/-- C7.  For every six-character string of hex digits (0-9, A-F, a-f),
`from_hex` succeeds on it, and rendering the parsed address back with
`to_hex` gives the ASCII uppercase form of the input — so the
round trip is the identity when the input has no lowercase digit; and
for every address of u8 bytes, `to_hex` returns exactly six uppercase
hex digit characters. -/
theorem c7_to_hex_from_hex_roundtrip :
    (∀ s : Str, s.length = 6 → (∀ c ∈ s, isHexDigitChar c = true) →
      Address.from_hex s = some (.ok (addrOfHex s)) ∧
      (addrOfHex s).to_hex = s.map asciiUpper ∧
      ((∀ c ∈ s, c < 97) → (addrOfHex s).to_hex = s)) ∧
    (∀ b : Address, b.wf →
      (Address.to_hex b).length = 6 ∧
      ∀ c ∈ Address.to_hex b, isUpperHexDigit c = true) := by
  constructor
  · intro s h6 hhex
    rcases s with _ | ⟨c1, _ | ⟨c2, _ | ⟨c3, _ | ⟨c4, _ | ⟨c5, _ | ⟨c6, _ | ⟨c7, t⟩⟩⟩⟩⟩⟩⟩ <;>
      simp [List.length] at h6
    obtain ⟨v1, l1, u1, a1⟩ := hexChar_spec c1 (hhex c1 (by simp))
    obtain ⟨v2, l2, u2, a2⟩ := hexChar_spec c2 (hhex c2 (by simp))
    obtain ⟨v3, l3, u3, a3⟩ := hexChar_spec c3 (hhex c3 (by simp))
    obtain ⟨v4, l4, u4, a4⟩ := hexChar_spec c4 (hhex c4 (by simp))
    obtain ⟨v5, l5, u5, a5⟩ := hexChar_spec c5 (hhex c5 (by simp))
    obtain ⟨v6, l6, u6, a6⟩ := hexChar_spec c6 (hhex c6 (by simp))
    have hto : (addrOfHex [c1, c2, c3, c4, c5, c6]).to_hex =
        [c1, c2, c3, c4, c5, c6].map asciiUpper := by
      show Address.to_hex
        ⟨hv c1 * 16 + hv c2, hv c3 * 16 + hv c4, hv c5 * 16 + hv c6⟩ = _
      simp only [Address.to_hex]
      rw [formatHexPad2_eq _ (by omega), formatHexPad2_eq _ (by omega),
        formatHexPad2_eq _ (by omega)]
      unfold write_hex_byte
      rw [show (hv c1 * 16 + hv c2) / 16 % 16 = hv c1 by omega,
        show (hv c1 * 16 + hv c2) % 16 = hv c2 by omega,
        show (hv c3 * 16 + hv c4) / 16 % 16 = hv c3 by omega,
        show (hv c3 * 16 + hv c4) % 16 = hv c4 by omega,
        show (hv c5 * 16 + hv c6) / 16 % 16 = hv c5 by omega,
        show (hv c5 * 16 + hv c6) % 16 = hv c6 by omega,
        u1, u2, u3, u4, u5, u6]
      simp
    refine ⟨?_, hto, ?_⟩
    · exact from_hex_pairs
        (by intro x hx; simp at hx;
            rcases hx with rfl | rfl | rfl | rfl | rfl | rfl <;> assumption)
        (parse_hex_byte_pair (hhex c1 (by simp)) (hhex c2 (by simp)))
        (parse_hex_byte_pair (hhex c3 (by simp)) (hhex c4 (by simp)))
        (parse_hex_byte_pair (hhex c5 (by simp)) (hhex c6 (by simp)))
    · intro hlow
      rw [hto]
      rw [show [c1, c2, c3, c4, c5, c6].map asciiUpper =
          [asciiUpper c1, asciiUpper c2, asciiUpper c3, asciiUpper c4,
            asciiUpper c5, asciiUpper c6] from rfl]
      rw [asciiUpper_of_lt (hlow c1 (by simp)),
        asciiUpper_of_lt (hlow c2 (by simp)),
        asciiUpper_of_lt (hlow c3 (by simp)),
        asciiUpper_of_lt (hlow c4 (by simp)),
        asciiUpper_of_lt (hlow c5 (by simp)),
        asciiUpper_of_lt (hlow c6 (by simp))]
  · intro b hb
    obtain ⟨h1, h2, h3⟩ := hb
    constructor
    · rw [to_hex_eq_write_hex ⟨h1, h2, h3⟩]
      simp [Address.write_hex, write_hex_byte]
    · intro c hc
      rw [to_hex_eq_write_hex ⟨h1, h2, h3⟩] at hc
      simp [Address.write_hex] at hc
      rcases hc with h | h | h
      · exact write_hex_byte_upper _ h1 c h
      · exact write_hex_byte_upper _ h2 c h
      · exact write_hex_byte_upper _ h3 c h

/-- C7, witness at the concrete strings 12aB56 and 123456 and the
concrete address 12AB56. -/
theorem c7_to_hex_from_hex_roundtrip_witness :
    Address.from_hex (str ("12aB56")) =
      some (.ok (addrOfHex (str ("12aB56")))) ∧
    Address.to_hex (addrOfHex (str ("12aB56"))) = str ("12AB56") ∧
    Address.to_hex (addrOfHex (str ("123456"))) = str ("123456") ∧
    (Address.to_hex ⟨18, 171, 86⟩).length = 6 := by
  have h1 := c7_to_hex_from_hex_roundtrip.1 (str ("12aB56")) (by decide)
    (by decide)
  have h2 := c7_to_hex_from_hex_roundtrip.1 (str ("123456")) (by decide)
    (by decide)
  have h3 := c7_to_hex_from_hex_roundtrip.2 ⟨18, 171, 86⟩ (by decide)
  exact ⟨h1.1, by rw [h1.2.1]; decide, h2.2.2 (by decide), h3.1⟩

/-! ### Claim C8 -/

theorem decFold_le (s : Str) :
    ∀ acc : Nat, acc ≤ s.foldl (fun acc c => acc * 10 + (c - 48)) acc := by
  induction s with
  | nil => intro acc; simp
  | cons c t ih =>
    intro acc
    rw [List.foldl_cons]
    exact le_trans (by omega) (ih (acc * 10 + (c - 48)))

theorem parseDecLoop_spec (s : Str) :
    ∀ acc : Nat, acc ≤ 255 →
    parseDecLoop s acc =
      if (∀ c ∈ s, 48 ≤ c ∧ c ≤ 57) ∧
          s.foldl (fun acc c => acc * 10 + (c - 48)) acc ≤ 255
      then .ok (s.foldl (fun acc c => acc * 10 + (c - 48)) acc)
      else .error .InvalidResponse := by
  induction s with
  | nil =>
    intro acc hacc
    simp [parseDecLoop, hacc]
  | cons c t ih =>
    intro acc hacc
    rw [List.foldl_cons]
    by_cases hd : 48 ≤ c ∧ c ≤ 57
    · by_cases hof : acc * 10 + (c - 48) ≤ 255
      · rw [show parseDecLoop (c :: t) acc = parseDecLoop t (acc * 10 + (c - 48))
            from by simp [parseDecLoop, hd, hof]]
        rw [ih _ hof]
        exact if_congr (by simp [hd]) rfl rfl
      · rw [show parseDecLoop (c :: t) acc = .error .InvalidResponse
            from by simp [parseDecLoop, hd, hof]]
        rw [if_neg]
        rintro ⟨-, hle⟩
        exact absurd (le_trans (decFold_le t (acc * 10 + (c - 48))) hle) hof
    · rw [show parseDecLoop (c :: t) acc = .error .InvalidResponse
          from by simp [parseDecLoop, hd]]
      rw [if_neg]
      rintro ⟨hall, -⟩
      exact hd (hall c (by simp))

theorem parse_err_body (body : Str) :
    Response.parse (str ("ERR:") ++ (body ++ [59])) =
      if (∀ c ∈ body, 48 ≤ c ∧ c ≤ 57) ∧ decValue body ≤ 255
      then some (.ok (.Error (errorFromCode (decValue body))))
      else some (.error .InvalidResponse) := by
  unfold Response.parse
  rw [str_ERR]
  rw [show ([69, 82, 82, 58] : Str) ++ (body ++ [59]) =
      69 :: ((82 :: 82 :: 58 :: body) ++ [59]) by simp]
  rw [trim_shape (by decide) (by decide), stripStx_cons (by decide)]
  rw [show (69 : Nat) :: ((82 :: 82 :: 58 :: body) ++ [59]) =
      [69, 82, 82, 58] ++ (body ++ [59]) by simp]
  rw [dispatch_keyword_ERR]
  unfold parseERR
  rw [if_pos (List.getLast?_concat _), List.dropLast_concat]
  unfold parse_decimal_u8
  rw [parseDecLoop_spec body 0 (by omega)]
  rw [show body.foldl (fun acc c => acc * 10 + (c - 48)) 0 = decValue body
      from rfl]
  by_cases hcond : (∀ c ∈ body, 48 ≤ c ∧ c ≤ 57) ∧ decValue body ≤ 255
  · simp only [if_pos hcond]
  · simp only [if_neg hcond]

/-- C8.  For every input of the form ERR: body ; — if every character
of the body is a decimal digit and the digits evaluate to at most 255,
parsing yields the error response named by the code through the map
0 to SyntaxError, 4 to Invalid, 5 to OutOfRange, 6 to NoStx and any
other value to UnknownError (the map `errorFromCode`); a non-digit
character or a value past the 8-bit range is an `InvalidResponse`
parse failure. -/
theorem c8_error_code_parsing (body : Str) :
    ((∀ c ∈ body, 48 ≤ c ∧ c ≤ 57) → decValue body ≤ 255 →
      Response.parse (str ("ERR:") ++ (body ++ [59])) =
        some (.ok (.Error (errorFromCode (decValue body))))) ∧
    (¬ ((∀ c ∈ body, 48 ≤ c ∧ c ≤ 57) ∧ decValue body ≤ 255) →
      Response.parse (str ("ERR:") ++ (body ++ [59])) =
        some (.error .InvalidResponse)) := by
  constructor
  · intro hall hle
    rw [parse_err_body, if_pos ⟨hall, hle⟩]
  · intro hnot
    rw [parse_err_body, if_neg hnot]

/-- C8, witness at the concrete bodies 99 (unknown code), 0 (syntax
error) and 4x (non-digit). -/
theorem c8_error_code_parsing_witness :
    Response.parse (str ("ERR:") ++ ([57, 57] ++ [59])) =
      some (.ok (.Error (.UnknownError 99))) ∧
    Response.parse (str ("ERR:") ++ ([48] ++ [59])) =
      some (.ok (.Error .SyntaxError)) ∧
    Response.parse (str ("ERR:") ++ ([52, 120] ++ [59])) =
      some (.error .InvalidResponse) := by
  refine ⟨?_, ?_, (c8_error_code_parsing [52, 120]).2 (by decide)⟩
  · rw [(c8_error_code_parsing [57, 57]).1 (by decide) (by decide)]
    decide
  · rw [(c8_error_code_parsing [48]).1 (by decide) (by decide)]
    decide

/-! ### Claim C10 -/

theorem parseHexLoop_errors (s : Str) :
    ∀ acc e, parseHexLoop s acc = .error e → e = .InvalidAddress := by
  induction s with
  | nil => intro acc e h; simp [parseHexLoop] at h
  | cons c t ih =>
    intro acc e h
    rw [parseHexLoop] at h
    cases hd : hexDigitVal c with
    | none => rw [hd] at h; simp at h; exact h.symm
    | some d => rw [hd] at h; exact ih _ _ h

theorem parse_hex_byte_errors (s : Str) :
    ∀ e, parse_hex_byte s = .error e → e = .InvalidAddress := by
  intro e h
  unfold parse_hex_byte at h
  split at h
  · exact parseHexLoop_errors s 0 e h
  · simp at h; exact h.symm

theorem from_hex_errors (hx : Str) :
    ∀ e, Address.from_hex hx = some (.error e) → e = .InvalidAddress := by
  intro e h
  unfold Address.from_hex at h
  split at h
  · simp at h; exact h.symm
  · split at h
    · simp at h
    · split at h
      · simp at h
        exact (parse_hex_byte_errors _ _ (by assumption)).symm ▸ h.symm
      · split at h
        · simp at h
        · split at h
          · simp at h
            exact (parse_hex_byte_errors _ _ (by assumption)).symm ▸ h.symm
          · split at h
            · simp at h
            · split at h
              · simp at h
                exact (parse_hex_byte_errors _ _ (by assumption)).symm ▸ h.symm
              · simp at h

theorem parseDecLoop_errors (s : Str) :
    ∀ acc e, parseDecLoop s acc = .error e → e = .InvalidResponse := by
  induction s with
  | nil => intro acc e h; simp [parseDecLoop] at h
  | cons c t ih =>
    intro acc e h
    rw [parseDecLoop] at h
    split at h
    · split at h
      · exact ih _ _ h
      · simp at h; exact h.symm
    · simp at h; exact h.symm

theorem parseDTH_errors (content : Str) :
    ∀ e, parseDTH content = some (.error e) →
      e = .InvalidAddress ∨ e = .InvalidResponse := by
  intro e h
  unfold parseDTH at h
  split at h
  · split at h
    · split at h
      · simp at h
      · simp at h
        cases h
        exact .inl (from_hex_errors _ _ (by assumption))
      · split at h
        · simp at h
          cases h
          exact .inl (parse_hex_byte_errors _ _ (by assumption))
        · simp at h
    · simp at h; exact .inr h.symm
  · simp at h; exact .inr h.symm

theorem parseVER_errors (content : Str) :
    ∀ e, parseVER content = some (.error e) → e = .InvalidResponse := by
  intro e h
  unfold parseVER at h
  split at h
  · split at h
    · simp at h
    · simp at h; exact h.symm
  · simp at h; exact h.symm

theorem parseERR_errors (content : Str) :
    ∀ e, parseERR content = some (.error e) → e = .InvalidResponse := by
  intro e h
  unfold parseERR at h
  split at h
  · split at h
    · simp at h
      exact (parseDecLoop_errors _ _ _ (by assumption)).symm ▸ h.symm
    · simp at h
  · simp at h; exact h.symm

theorem dispatch_errors (r : Str) :
    ∀ e, dispatch r = some (.error e) →
      e = .InvalidAddress ∨ e = .InvalidResponse := by
  intro e h
  unfold dispatch at h
  split at h
  · simp at h
  · split at h
    · simp at h; exact .inr h.symm
    · split at h
      · simp at h; exact .inr h.symm
      · split at h
        · exact parseDTH_errors _ _ h
        · split at h
          · exact .inr (parseVER_errors _ _ h)
          · split at h
            · exact .inr (parseERR_errors _ _ h)
            · simp at h; exact .inr h.symm

/-- C10.  No core operation ever produces `RolandError::InvalidValue`:
parsing and the hex parsers fail only with `InvalidAddress` or
`InvalidResponse`, because the value field of a data response is read
by the same hex-byte parser as the address; concretely a malformed
value field GG fails with `InvalidAddress`. -/
theorem c10_invalid_value_never_produced (s : Str) :
    Response.parse s ≠ some (.error .InvalidValue) ∧
    Address.from_hex s ≠ some (.error .InvalidValue) ∧
    parse_hex_byte s ≠ .error .InvalidValue ∧
    Response.parse (str ("DTH:123456,GG;")) =
      some (.error .InvalidAddress) := by
  refine ⟨?_, ?_, ?_, by decide⟩
  · intro h
    unfold Response.parse at h
    rcases dispatch_errors _ _ h with h' | h' <;> exact absurd h' (by decide)
  · intro h
    exact absurd (from_hex_errors _ _ h) (by decide)
  · intro h
    exact absurd (parse_hex_byte_errors _ _ h) (by decide)

end Roland
